import Mathlib

/-!
Verification of the NoProb saturation-curve fitting core (src/NoProb.py).

The model functions (mod_maxwell, s_curve, steady, saturation_function,
get_saturation_gradient, get_obj_function, get_gradient, getAsymtote_Y)
are shallowly embedded over the real numbers, translated line by line from
the Python source; numpy's elementwise arithmetic over a data vector is
embedded as a scalar function of the time argument together with list maps
over the (time, value) samples.  The outer-search control flow of __main__
(candidate down-sampling, best-loss selection, auxiliary-dictionary
mutation) and the parameter-file validation are embedded over the
rationals, where every step is decidable; the IEEE special values, which
matter only to the best-loss comparison, are embedded by the inductive
type FVal with the comparison semantics of Python floats.
-/

namespace NoProb

/-- The tunable parameter 4-vector: parameters[0..3] of the source. -/
structure Params where
  K1 : ℝ
  N0 : ℝ
  N1 : ℝ
  N2 : ℝ

/-- The auxiliary entries the model functions read from aux_parameters:
the dt, c3, cvert and r values. -/
structure Aux where
  dt : ℝ
  c3 : ℝ
  cvert : ℝ
  r : ℝ

/-- mod_maxwell (src/NoProb.py line 61): the relaxation term.  The source's
local T = N0 / K1 is substituted inline. -/
noncomputable def mod_maxwell (time : ℝ) (p : Params) (a : Aux) : ℝ :=
  -1 * ((1 / p.K1) * (1 - Real.exp (-1 * (time - a.dt) / (p.N0 / p.K1)))
        + (time - a.dt) / p.N1)

/-- s_curve (line 77): the logistic gate. -/
noncomputable def s_curve (time : ℝ) (p : Params) (a : Aux) : ℝ :=
  1 / (1 + a.c3 * Real.exp ((-time + a.dt) * a.r))

/-- steady (line 86): the linear drift term. -/
noncomputable def steady (time : ℝ) (p : Params) (a : Aux) : ℝ :=
  (time - a.dt) / p.N2 + a.cvert

/-- saturation_function (line 95): the full model value. -/
noncomputable def saturation_function (time : ℝ) (p : Params) (a : Aux) : ℝ :=
  mod_maxwell time p a * s_curve time p a + steady time p a

/-- get_saturation_gradient (line 36): the source's analytic gradient
vector [df_dk1, df_dN0, df_dN1, df_dN2], each formula transcribed
verbatim. -/
noncomputable def get_saturation_gradient (t : ℝ) (p : Params) (a : Aux) : Fin 4 → ℝ :=
  ![(-1 / (a.c3 * Real.exp (a.r * (a.dt - t))))
      * ((((a.dt - t) * Real.exp ((-p.K1 * (a.dt - t)) / p.N1)) / (p.K1 * p.N1))
         - (1 - Real.exp ((-p.K1 * (a.dt - t)) / p.N1)) / p.K1 ^ 2),
    -(a.dt - t) * Real.exp ((p.K1 * (a.dt - t)) / p.N0)
      / (p.N0 ^ 2 * (a.c3 * Real.exp (a.r * (a.dt - t)) + 1)),
    (t - a.dt) / (p.N1 ^ 2 * (a.c3 * Real.exp (a.r * (a.dt - t)) + 1)),
    (a.dt - t) / p.N2 ^ 2]

/-- The relaxation term exactly as the spec writes it:
relaxation(t) = -( (1/K1)*(1 - exp(-(t-dt)/(N0/K1))) + (t-dt)/N1 ). -/
noncomputable def spec_relaxation (time : ℝ) (p : Params) (a : Aux) : ℝ :=
  -((1 / p.K1) * (1 - Real.exp (-((time - a.dt) / (p.N0 / p.K1))))
    + (time - a.dt) / p.N1)

/-- The gate exactly as the spec writes it: gate(t) = 1/(1 + c3*exp(-r*(t-dt))). -/
noncomputable def spec_gate (time : ℝ) (p : Params) (a : Aux) : ℝ :=
  1 / (1 + a.c3 * Real.exp (-a.r * (time - a.dt)))

/-- The drift exactly as the spec writes it: drift(t) = (t-dt)/N2 + cvert. -/
noncomputable def spec_drift (time : ℝ) (p : Params) (a : Aux) : ℝ :=
  (time - a.dt) / p.N2 + a.cvert

/-- get_obj_function (line 112): the sum-of-squared-residuals objective,
closed over the data (X, Y) and the auxiliary constants. -/
noncomputable def get_obj_function (X Y : List ℝ) (a : Aux) : Params → ℝ :=
  fun p => ((X.zip Y).map fun q => (q.2 - saturation_function q.1 p a) ^ 2).sum

/-- get_gradient (line 128): the objective's gradient as the source
computes it, summing -2*Y*grad + 2*f*grad over the data points. -/
noncomputable def get_gradient (X Y : List ℝ) (p : Params) (a : Aux) : Fin 4 → ℝ :=
  fun i => ((X.zip Y).map fun q =>
    -2 * q.2 * get_saturation_gradient q.1 p a i
      + 2 * saturation_function q.1 p a * get_saturation_gradient q.1 p a i).sum

/-- get_gradient_function (line 117): the gradient closure. -/
noncomputable def get_gradient_function (X Y : List ℝ) (a : Aux) : Params → Fin 4 → ℝ :=
  fun p => get_gradient X Y p a

/-- ddB_dt (line 251): the reference second difference of the fitted curve
at dt, with unit steps. -/
noncomputable def ddB_dt (p : Params) (a : Aux) : ℝ :=
  |(saturation_function a.dt p a - saturation_function (a.dt - 1) p a)
    - (saturation_function (a.dt + 1) p a - saturation_function a.dt p a)|

/-- dB_asym_guess_1 (line 255): backward first difference at dt*i. -/
noncomputable def dB_asym_guess_1 (p : Params) (a : Aux) (i : ℕ) : ℝ :=
  saturation_function (a.dt * i) p a - saturation_function (a.dt * i - 1) p a

/-- dB_asym_guess_2 (line 256): forward first difference (the forward
slope) at dt*i. -/
noncomputable def dB_asym_guess_2 (p : Params) (a : Aux) (i : ℕ) : ℝ :=
  saturation_function (a.dt * i + 1) p a - saturation_function (a.dt * i) p a

/-- ddB_asym_guess (line 257): second difference at dt*i. -/
noncomputable def ddB_asym_guess (p : Params) (a : Aux) (i : ℕ) : ℝ :=
  dB_asym_guess_1 p a i - dB_asym_guess_2 p a i

/-- The acceptance test of getAsymtote_Y's loop (line 259):
ddB_dt*0.01 > abs(ddB_asym_guess). -/
def asymCond (p : Params) (a : Aux) (i : ℕ) : Prop :=
  ddB_dt p a * 0.01 > |ddB_asym_guess p a i|

noncomputable instance asymCondDec (p : Params) (a : Aux) (i : ℕ) :
    Decidable (asymCond p a i) :=
  inferInstanceAs (Decidable (_ > _))

/-- The value returned at an accepted index (lines 261-267): the model
value at dt*i when the forward slope is negative, otherwise the model
value back-extrapolated by dt*i times the forward slope. -/
noncomputable def asymValue (p : Params) (a : Aux) (i : ℕ) : ℝ :=
  if dB_asym_guess_2 p a i < 0 then saturation_function (a.dt * i) p a
  else saturation_function (a.dt * i) p a - a.dt * i * dB_asym_guess_2 p a i

/-- The for-loop of getAsymtote_Y (line 254), with the remaining iteration
count made explicit; none embeds the sys.exit(1) fall-through. -/
noncomputable def asymLoop (p : Params) (a : Aux) : ℕ → ℕ → Option ℝ
  | 0, _ => none
  | fuel + 1, i =>
    if asymCond p a i then some (asymValue p a i)
    else asymLoop p a fuel (i + 1)

/-- getAsymtote_Y (line 249): scan i = 1..99 for the first index passing
the threshold test; none models the fatal abort. -/
noncomputable def getAsymtote_Y (p : Params) (a : Aux) : Option ℝ :=
  asymLoop p a 99 1

/-- The candidate down-sampling of __main__ (lines 285-298), over the
trimmed dt-window (span_dt, span_cvert).  When the window holds more than
200 samples the source keeps the 200 positions i*int((n-1)/200); there is
no else branch, so a smaller window leaves both guess lists empty. -/
def downsampleCandidates (span_dt span_cvert : List ℚ) : List ℚ × List ℚ :=
  if span_dt.length > 200 then
    (((List.range 200).map fun i => span_dt.getD (i * ((span_dt.length - 1) / 200)) 0),
     ((List.range 200).map fun i => span_cvert.getD (i * ((span_dt.length - 1) / 200)) 0))
  else ([], [])

/-- One step of the best-loss selection (line 314): the running (loss,
best_guess_index) pair is replaced when loss == 0 or guess_loss < loss. -/
def selectStep (s : ℚ × ℕ) (idx : ℕ) (l : ℚ) : ℚ × ℕ :=
  if s.1 = 0 ∨ l < s.1 then (l, idx) else s

/-- The outer-search selection loop over the candidate losses in index
order (lines 308-320), threading the (loss, best_guess_index) state. -/
def selectLoop : List ℚ → ℕ → ℚ × ℕ → ℚ × ℕ
  | [], _, s => s
  | l :: ls, idx, s => selectLoop ls (idx + 1) (selectStep s idx l)

/-- The whole selection run, from the initial state loss = 0,
best_guess_index = 0 (lines 301-302). -/
def runSelect (losses : List ℚ) : ℚ × ℕ := selectLoop losses 0 (0, 0)

/-- A Python float as the best-loss comparison sees it: a finite value,
one of the two infinities, or NaN. -/
inductive FVal where
  | fin (x : ℚ)
  | inf
  | ninf
  | nan
deriving DecidableEq

/-- The strict less-than of floats: NaN is incomparable with everything,
the infinities compare as usual. -/
def FVal.lt : FVal → FVal → Bool
  | fin x, fin y => decide (x < y)
  | fin _, inf => true
  | ninf, fin _ => true
  | ninf, inf => true
  | _, _ => false

/-- The test loss == 0 on a float: false for NaN and the infinities. -/
def FVal.eqZero : FVal → Bool
  | fin x => decide (x = 0)
  | _ => false

def FVal.isFinite : FVal → Bool
  | fin _ => true
  | _ => false

/-- selectStep over floats: the comparison of line 314 with float
semantics. -/
def selectStepF (s : FVal × ℕ) (idx : ℕ) (l : FVal) : FVal × ℕ :=
  if s.1.eqZero || FVal.lt l s.1 then (l, idx) else s

/-- selectLoop over floats. -/
def selectLoopF : List FVal → ℕ → FVal × ℕ → FVal × ℕ
  | [], _, s => s
  | l :: ls, idx, s => selectLoopF ls (idx + 1) (selectStepF s idx l)

/-- The whole selection run over floats, from loss = 0.0. -/
def runSelectF (losses : List FVal) : FVal × ℕ := selectLoopF losses 0 (.fin 0, 0)

/-- TUNED_PARAMS (line 15). -/
def TUNED_PARAMS : List String := ["k1", "n0", "n1", "n2"]

/-- USER_DEFINED_PARAMS (line 19). -/
def USER_DEFINED_PARAMS : List String :=
  ["dt_min", "dt_max", "c3", "r", "graph_left_cutoff", "graph_right_cutoff",
   "optimization_left_cutoff", "optimization_right_cutoff"]

/-- The line loop of read_parameters_from_file (lines 156-167) over the
already-split, lowercased key = value rows: a tuned key sets the matching
slot of the parameter vector, a recognized auxiliary key is recorded in
the dictionary (newest binding first), any other key exits (none). -/
def readLoop : List (String × ℚ) → List ℚ × List (String × ℚ) →
    Option (List ℚ × List (String × ℚ))
  | [], st => some st
  | (k, v) :: rest, (ps, d) =>
    if k ∈ TUNED_PARAMS then
      readLoop rest (ps.set (TUNED_PARAMS.findIdx (fun s => s == k)) v, d)
    else if k ∈ USER_DEFINED_PARAMS then
      readLoop rest (ps, (k, v) :: d)
    else none

/-- read_parameters_from_file (lines 149-173): run the line loop from the
zero parameter vector and the empty dictionary, then exit (none) when any
recognized auxiliary key is missing.  The interactive confirmation prompt
that follows in the source is UI glue outside the validation. -/
def read_parameters_from_file (rows : List (String × ℚ)) :
    Option (List ℚ × List (String × ℚ)) :=
  match readLoop rows (List.replicate 4 0, []) with
  | none => none
  | some st =>
    if USER_DEFINED_PARAMS.all (fun k => (st.2.lookup k).isSome) then some st else none

/-- A Python dictionary update aux_params[key] = v, on the dictionary
viewed as a total map. -/
def updateKey (m : String → ℚ) (key : String) (v : ℚ) : String → ℚ :=
  fun k => if k = key then v else m k

/-- One outer-search iteration's writes to aux_params (lines 309-310):
dt, then cvert, each once. -/
def outerStep (m : String → ℚ) (g : ℚ × ℚ) : String → ℚ :=
  updateKey (updateKey m ("dt") g.1) ("cvert") g.2

/-- The outer-search loop's effect on aux_params over the candidate list
(lines 307-320); the fitting itself only reads the dictionary. -/
def outerLoopAux : List (ℚ × ℚ) → (String → ℚ) → String → ℚ
  | [], m => m
  | g :: gs, m => outerLoopAux gs (outerStep m g)

/-- The post-search writes (lines 331-335): dt and cvert reset to the best
candidate, then the derived bt entry added. -/
def postSearchAux (m : String → ℚ) (best : ℚ × ℚ) (bt : ℚ) : String → ℚ :=
  updateKey (updateKey (updateKey m ("dt") best.1) ("cvert") best.2) ("bt") bt

/-! ## Helper lemmas -/

lemma sat_K1_fun_eq :
    (fun k : ℝ => saturation_function 1 ⟨k, 1, 1, 1⟩ ⟨0, 1, 0, 0⟩)
      = fun k : ℝ => -1 * (1 / k * (1 - Real.exp (-k)) + 1) * (1 / 2) + 1 := by
  funext k
  simp only [saturation_function, mod_maxwell, s_curve, steady]
  rw [show -1 * ((1 : ℝ) - 0) / ((1 : ℝ) / k) = -k by rw [one_div, div_inv_eq_mul]; ring]
  norm_num [Real.exp_zero]

lemma grad_k1_at_probe : get_saturation_gradient 1 ⟨1, 1, 1, 1⟩ ⟨0, 1, 0, 0⟩ 0 = 1 := by
  simp only [get_saturation_gradient, Matrix.cons_val_zero]
  norm_num [Real.exp_zero]

lemma sat_K1_hasDerivAt :
    HasDerivAt (fun k : ℝ => saturation_function 1 ⟨k, 1, 1, 1⟩ ⟨0, 1, 0, 0⟩)
      ((1 - 2 * Real.exp (-1)) / 2) 1 := by
  rw [sat_K1_fun_eq]
  have h1 : HasDerivAt (fun k : ℝ => -k) (-1) 1 := (hasDerivAt_id 1).neg
  have h2 := h1.exp
  have h3 : HasDerivAt (fun k : ℝ => 1 - Real.exp (-k)) (-(Real.exp (-(1 : ℝ)) * -1)) 1 :=
    h2.const_sub 1
  have h4 : HasDerivAt (fun k : ℝ => 1 / k) (-1) 1 := by
    simpa using (hasDerivAt_inv (one_ne_zero (α := ℝ)))
  have h5 := h4.mul h3
  have h6 := ((h5.add_const 1).const_mul (-1)).mul_const (1 / 2)
  have h7 := h6.add_const 1
  convert h7 using 1
  norm_num
  ring

lemma sat_at_probe : saturation_function 1 ⟨1, 1, 1, 1⟩ ⟨0, 1, 0, 0⟩ = Real.exp (-1) / 2 := by
  have h := congrFun sat_K1_fun_eq 1
  rw [h]
  norm_num
  ring

lemma deriv_ne_code : (1 - 2 * Real.exp (-1)) / 2 ≠ 1 := by
  have h := Real.exp_pos (-1 : ℝ)
  intro hcon
  nlinarith

lemma obj_fun_eq :
    (fun k : ℝ => get_obj_function [1] [0] ⟨0, 1, 0, 0⟩ ⟨k, 1, 1, 1⟩)
      = fun k : ℝ => saturation_function 1 ⟨k, 1, 1, 1⟩ ⟨0, 1, 0, 0⟩ ^ 2 := by
  funext k
  show ((0 : ℝ) - saturation_function 1 ⟨k, 1, 1, 1⟩ ⟨0, 1, 0, 0⟩) ^ 2 + 0 = _
  ring

lemma obj_hasDerivAt :
    HasDerivAt (fun k : ℝ => get_obj_function [1] [0] ⟨0, 1, 0, 0⟩ ⟨k, 1, 1, 1⟩)
      (Real.exp (-1) * (1 - 2 * Real.exp (-1)) / 2) 1 := by
  rw [obj_fun_eq]
  have h := sat_K1_hasDerivAt.pow 2
  convert h using 1
  norm_num [sat_at_probe]
  ring

lemma gradfn_at_probe :
    get_gradient_function [1] [0] ⟨0, 1, 0, 0⟩ ⟨1, 1, 1, 1⟩ 0 = Real.exp (-1) := by
  show -2 * 0 * get_saturation_gradient 1 ⟨1, 1, 1, 1⟩ ⟨0, 1, 0, 0⟩ 0
      + 2 * saturation_function 1 ⟨1, 1, 1, 1⟩ ⟨0, 1, 0, 0⟩
          * get_saturation_gradient 1 ⟨1, 1, 1, 1⟩ ⟨0, 1, 0, 0⟩ 0 + 0 = _
  rw [grad_k1_at_probe, sat_at_probe]
  ring

lemma code_grad_ne : Real.exp (-1) ≠ Real.exp (-1) * (1 - 2 * Real.exp (-1)) / 2 := by
  have he := Real.exp_pos (-1 : ℝ)
  intro h
  nlinarith [mul_pos he he]

lemma asymLoop_eq_none (p : Params) (a : Aux) :
    ∀ fuel i, (∀ j, i ≤ j → j < i + fuel → ¬ asymCond p a j) →
      asymLoop p a fuel i = none := by
  intro fuel
  induction fuel with
  | zero => intro i _; rfl
  | succ n ih =>
    intro i h
    rw [asymLoop, if_neg (h i le_rfl (by omega))]
    exact ih (i + 1) fun j h1 h2 => h j (by omega) (by omega)

lemma asymLoop_eq_some (p : Params) (a : Aux) :
    ∀ fuel i k, i ≤ k → k < i + fuel → asymCond p a k →
      (∀ j, i ≤ j → j < k → ¬ asymCond p a j) →
      asymLoop p a fuel i = some (asymValue p a k) := by
  intro fuel
  induction fuel with
  | zero => intro i k h1 h2 _ _; omega
  | succ n ih =>
    intro i k h1 h2 hk hmin
    by_cases hi : asymCond p a i
    · have hik : k = i := by
        by_contra hne
        exact absurd hi (hmin i le_rfl (by omega))
      subst hik
      rw [asymLoop, if_pos hi]
    · rw [asymLoop, if_neg hi]
      have hik : i < k := by
        rcases Nat.eq_or_lt_of_le h1 with h | h
        · exact absurd (h ▸ hk) hi
        · exact h
      exact ih (i + 1) k (by omega) (by omega) hk fun j hj1 hj2 => hmin j (by omega) hj2

lemma abs_hundredth_not_gt (x : ℝ) : ¬ (|x| * 0.01 > |x|) := by
  have h := abs_nonneg x
  intro hcon
  nlinarith

lemma selectLoop_invariant (ls : List ℚ) (hl : ∀ l ∈ ls, l ≠ 0) :
    ∀ idx (s : ℚ × ℕ), s.1 ≠ 0 →
      ((selectLoop ls idx s = s ∧ ∀ j, j < ls.length → s.1 ≤ ls.getD j 0)
      ∨ (∃ m, m < ls.length ∧ selectLoop ls idx s = (ls.getD m 0, idx + m)
           ∧ (selectLoop ls idx s).1 < s.1
           ∧ (∀ j, j < ls.length → (selectLoop ls idx s).1 ≤ ls.getD j 0)
           ∧ (∀ j, j < m → (selectLoop ls idx s).1 < ls.getD j 0))) := by
  induction ls with
  | nil =>
    intro idx s _
    exact Or.inl ⟨rfl, fun j hj => absurd hj (by simp)⟩
  | cons l ls ih =>
    intro idx s hs
    have hl0 : l ≠ 0 := hl l (List.mem_cons_self l ls)
    have hltail : ∀ x ∈ ls, x ≠ 0 := fun x hx => hl x (List.mem_cons_of_mem l hx)
    by_cases hc : l < s.1
    · have hstep : selectStep s idx l = (l, idx) := by
        rw [selectStep, if_pos (Or.inr hc)]
      have hrun : selectLoop (l :: ls) idx s = selectLoop ls (idx + 1) (l, idx) := by
        rw [selectLoop, hstep]
      rcases ih hltail (idx + 1) (l, idx) hl0 with ⟨heq, hmin⟩ | ⟨m, hm, heq, hlt, hmin, hstrict⟩
      · refine Or.inr ⟨0, by simp, ?_, ?_, ?_, ?_⟩
        · rw [hrun, heq]; simp
        · rw [hrun, heq]; exact hc
        · intro j hj
          rw [hrun, heq]
          match j with
          | 0 => simp
          | j + 1 =>
            simp only [List.getD_cons_succ]
            exact hmin j (by simpa using hj)
        · intro j hj; omega
      · refine Or.inr ⟨m + 1, by simpa using hm, ?_, ?_, ?_, ?_⟩
        · rw [hrun, heq]; simp only [List.getD_cons_succ]; congr 1; omega
        · rw [hrun]; exact lt_trans hlt hc
        · intro j hj
          rw [hrun]
          match j with
          | 0 => simpa using le_of_lt hlt
          | j + 1 =>
            simp only [List.getD_cons_succ]
            exact hmin j (by simpa using hj)
        · intro j hj
          rw [hrun]
          match j with
          | 0 => simpa using hlt
          | j + 1 =>
            simp only [List.getD_cons_succ]
            exact hstrict j (by omega)
    · have hstep : selectStep s idx l = s := by
        rw [selectStep, if_neg]
        rintro (h | h)
        · exact hs h
        · exact hc h
      have hrun : selectLoop (l :: ls) idx s = selectLoop ls (idx + 1) s := by
        rw [selectLoop, hstep]
      have hsl : s.1 ≤ l := le_of_not_lt hc
      rcases ih hltail (idx + 1) s hs with ⟨heq, hmin⟩ | ⟨m, hm, heq, hlt, hmin, hstrict⟩
      · refine Or.inl ⟨by rw [hrun, heq], ?_⟩
        intro j hj
        match j with
        | 0 => simpa using hsl
        | j + 1 =>
          simp only [List.getD_cons_succ]
          exact hmin j (by simpa using hj)
      · refine Or.inr ⟨m + 1, by simpa using hm, ?_, ?_, ?_, ?_⟩
        · rw [hrun, heq]; simp only [List.getD_cons_succ]; congr 1; omega
        · rw [hrun]; exact hlt
        · intro j hj
          rw [hrun]
          match j with
          | 0 => simpa using le_of_lt (lt_of_lt_of_le hlt hsl)
          | j + 1 =>
            simp only [List.getD_cons_succ]
            exact hmin j (by simpa using hj)
        · intro j hj
          rw [hrun]
          match j with
          | 0 => simpa using lt_of_lt_of_le hlt hsl
          | j + 1 =>
            simp only [List.getD_cons_succ]
            exact hstrict j (by omega)

lemma selectLoopF_finite (ls : List FVal) :
    ∀ idx (s : FVal × ℕ),
      (∀ l ∈ ls, l ≠ FVal.nan) → (∀ l ∈ ls, l ≠ FVal.ninf) →
      (∀ l ∈ ls, l.eqZero = false) →
      s.1 ≠ FVal.nan → s.1 ≠ FVal.ninf →
      ((s.1.isFinite = true ∧ s.1.eqZero = false) ∨ ∃ l ∈ ls, l.isFinite = true) →
      (selectLoopF ls idx s).1.isFinite = true ∧
        (selectLoopF ls idx s).1.eqZero = false := by
  induction ls with
  | nil =>
    intro idx s _ _ _ _ _ h
    rcases h with ⟨h1, h2⟩ | ⟨l, hl, _⟩
    · exact ⟨h1, h2⟩
    · simp at hl
  | cons l ls ih =>
    intro idx s hnan hninf hz hsn hsn2 h
    have hlnan : l ≠ FVal.nan := hnan l (List.mem_cons_self l ls)
    have hlninf : l ≠ FVal.ninf := hninf l (List.mem_cons_self l ls)
    have hlz : l.eqZero = false := hz l (List.mem_cons_self l ls)
    have hnan' : ∀ x ∈ ls, x ≠ FVal.nan := fun x hx => hnan x (List.mem_cons_of_mem l hx)
    have hninf' : ∀ x ∈ ls, x ≠ FVal.ninf := fun x hx => hninf x (List.mem_cons_of_mem l hx)
    have hz' : ∀ x ∈ ls, x.eqZero = false := fun x hx => hz x (List.mem_cons_of_mem l hx)
    have hcase : selectStepF s idx l = (l, idx) ∨
        (selectStepF s idx l = s ∧ s.1.eqZero = false ∧ FVal.lt l s.1 = false) := by
      unfold selectStepF
      by_cases hb : (s.1.eqZero || FVal.lt l s.1) = true
      · exact Or.inl (if_pos hb)
      · simp only [Bool.or_eq_true, not_or, Bool.not_eq_true] at hb
        exact Or.inr ⟨if_neg (by simp [hb.1, hb.2]), hb.1, hb.2⟩
    have hstep_nan : (selectStepF s idx l).1 ≠ FVal.nan := by
      rcases hcase with hc | ⟨hc, _, _⟩ <;> rw [hc]
      · exact hlnan
      · exact hsn
    have hstep_ninf : (selectStepF s idx l).1 ≠ FVal.ninf := by
      rcases hcase with hc | ⟨hc, _, _⟩ <;> rw [hc]
      · exact hlninf
      · exact hsn2
    show (selectLoopF ls (idx + 1) (selectStepF s idx l)).1.isFinite = true ∧
      (selectLoopF ls (idx + 1) (selectStepF s idx l)).1.eqZero = false
    by_cases hP : (selectStepF s idx l).1.isFinite = true ∧
        (selectStepF s idx l).1.eqZero = false
    · exact ih (idx + 1) _ hnan' hninf' hz' hstep_nan hstep_ninf (Or.inl hP)
    · have hrest : ∃ x ∈ ls, x.isFinite = true := by
        rcases h with ⟨hf, hz0⟩ | ⟨w, hw, hwf⟩
        · exfalso
          rcases hcase with hc | ⟨hc, _, _⟩
          · have hlfin : l.isFinite = false := by
              by_contra hb
              rw [Bool.not_eq_false] at hb
              exact hP ⟨by rw [hc]; exact hb, by rw [hc]; exact hlz⟩
            cases hl' : l with
            | fin y => rw [hl'] at hlfin; simp [FVal.isFinite] at hlfin
            | ninf => exact hlninf hl'
            | nan => exact hlnan hl'
            | inf =>
              subst hl'
              by_cases hb : (s.1.eqZero || FVal.lt FVal.inf s.1) = true
              · rw [Bool.or_eq_true] at hb
                rcases hb with hb | hb
                · rw [hz0] at hb
                  exact Bool.false_ne_true hb
                · cases hs1 : s.1 with
                  | fin x => rw [hs1] at hb; simp [FVal.lt] at hb
                  | inf => rw [hs1] at hf; simp [FVal.isFinite] at hf
                  | ninf => exact hsn2 hs1
                  | nan => exact hsn hs1
              · rw [selectStepF, if_neg hb] at hc
                have hs1 : s.1 = FVal.inf := by rw [hc]
                rw [hs1] at hf
                simp [FVal.isFinite] at hf
          · exact hP ⟨by rw [hc]; exact hf, by rw [hc]; exact hz0⟩
        · rcases List.mem_cons.mp hw with rfl | hw'
          · exfalso
            rcases hcase with hc | ⟨hc, hze, hlt⟩
            · exact hP ⟨by rw [hc]; exact hwf, by rw [hc]; exact hlz⟩
            · cases hl' : w with
              | fin y =>
                cases hs1 : s.1 with
                | fin x =>
                  refine hP ⟨by rw [hc, hs1]; rfl, by rw [hc]; exact hze⟩
                | inf => rw [hl', hs1] at hlt; simp [FVal.lt] at hlt
                | ninf => exact hsn2 hs1
                | nan => exact hsn hs1
              | inf => rw [hl'] at hwf; simp [FVal.isFinite] at hwf
              | ninf => rw [hl'] at hwf; simp [FVal.isFinite] at hwf
              | nan => rw [hl'] at hwf; simp [FVal.isFinite] at hwf
          · exact ⟨w, hw', hwf⟩
      exact ih (idx + 1) _ hnan' hninf' hz' hstep_nan hstep_ninf (Or.inr hrest)

lemma readLoop_isSome_iff (rows : List (String × ℚ)) :
    ∀ st, (readLoop rows st).isSome = true ↔
      ∀ kv ∈ rows, kv.1 ∈ TUNED_PARAMS ∨ kv.1 ∈ USER_DEFINED_PARAMS := by
  induction rows with
  | nil => intro st; simp [readLoop]
  | cons kv rest ih =>
    intro st
    obtain ⟨k, v⟩ := kv
    obtain ⟨ps, d⟩ := st
    by_cases h1 : k ∈ TUNED_PARAMS
    · rw [readLoop, if_pos h1, ih, List.forall_mem_cons]
      simp [h1]
    · by_cases h2 : k ∈ USER_DEFINED_PARAMS
      · rw [readLoop, if_neg h1, if_pos h2, ih, List.forall_mem_cons]
        simp [h2]
      · rw [readLoop, if_neg h1, if_neg h2]
        simp [List.forall_mem_cons, h1, h2]

lemma tuned_user_disjoint : ∀ s ∈ TUNED_PARAMS, s ∉ USER_DEFINED_PARAMS := by decide

lemma readLoop_lookup (rows : List (String × ℚ)) :
    ∀ ps d st, readLoop rows (ps, d) = some st →
      ∀ k, (st.2.lookup k).isSome = true ↔
        ((d.lookup k).isSome = true ∨ ∃ v, (k, v) ∈ rows ∧ k ∈ USER_DEFINED_PARAMS) := by
  induction rows with
  | nil =>
    intro ps d st hst k
    rw [readLoop, Option.some.injEq] at hst
    rw [← hst]
    simp
  | cons kv rest ih =>
    intro ps d st hst k
    obtain ⟨k', v'⟩ := kv
    by_cases h1 : k' ∈ TUNED_PARAMS
    · rw [readLoop, if_pos h1] at hst
      rw [ih _ _ _ hst k]
      constructor
      · rintro (hd | ⟨v, hv, hu⟩)
        · exact Or.inl hd
        · exact Or.inr ⟨v, List.mem_cons_of_mem _ hv, hu⟩
      · rintro (hd | ⟨v, hv, hu⟩)
        · exact Or.inl hd
        · rcases List.mem_cons.mp hv with heq | hv'
          · exfalso
            have hkk : k = k' := congrArg Prod.fst heq
            rw [hkk] at hu
            exact tuned_user_disjoint k' h1 hu
          · exact Or.inr ⟨v, hv', hu⟩
    · by_cases h2 : k' ∈ USER_DEFINED_PARAMS
      · rw [readLoop, if_neg h1, if_pos h2] at hst
        rw [ih _ _ _ hst k]
        by_cases hk : k = k'
        · subst hk
          simp only [List.lookup_cons_self]
          constructor
          · intro _
            exact Or.inr ⟨v', List.mem_cons_self _ _, h2⟩
          · intro _
            exact Or.inl rfl
        · have hbeq : (k == k') = false := by
            simp [hk]
          rw [List.lookup_cons, hbeq]
          simp only [Bool.false_eq_true, if_false]
          constructor
          · rintro (hd | ⟨v, hv, hu⟩)
            · exact Or.inl hd
            · exact Or.inr ⟨v, List.mem_cons_of_mem _ hv, hu⟩
          · rintro (hd | ⟨v, hv, hu⟩)
            · exact Or.inl hd
            · rcases List.mem_cons.mp hv with heq | hv'
              · exfalso
                exact hk (congrArg Prod.fst heq)
              · exact Or.inr ⟨v, hv', hu⟩
      · rw [readLoop, if_neg h1, if_neg h2] at hst
        cases hst

lemma outerStep_frame (m : String → ℚ) (g : ℚ × ℚ) (k : String)
    (hdt : k ≠ "dt") (hcv : k ≠ "cvert") : outerStep m g k = m k := by
  simp only [outerStep, updateKey]
  rw [if_neg hcv, if_neg hdt]

lemma outerLoopAux_frame :
    ∀ (gs : List (ℚ × ℚ)) (m : String → ℚ) (k : String),
      k ≠ "dt" → k ≠ "cvert" → outerLoopAux gs m k = m k := by
  intro gs
  induction gs with
  | nil => intro m k _ _; rfl
  | cons g gs ih =>
    intro m k hdt hcv
    show outerLoopAux gs (outerStep m g) k = m k
    rw [ih (outerStep m g) k hdt hcv, outerStep_frame m g k hdt hcv]

/-! ## The claims -/

/-- Claim C1 (code_bug): get_saturation_gradient's first component is NOT
the exact partial derivative of saturation_function with respect to K1.
At t = 1, parameters (1, 1, 1, 1), aux dt = 0, c3 = 1, cvert = 0, r = 0
(all tunable parameters nonzero), the source's df_dk1 formula evaluates to
1 while the true partial derivative is (1 - 2/e)/2. -/
theorem gradient_k1_bug :
    get_saturation_gradient 1 ⟨1, 1, 1, 1⟩ ⟨0, 1, 0, 0⟩ 0 = 1
  ∧ HasDerivAt (fun k : ℝ => saturation_function 1 ⟨k, 1, 1, 1⟩ ⟨0, 1, 0, 0⟩)
      ((1 - 2 * Real.exp (-1)) / 2) 1
  ∧ get_saturation_gradient 1 ⟨1, 1, 1, 1⟩ ⟨0, 1, 0, 0⟩ 0 ≠ (1 - 2 * Real.exp (-1)) / 2 :=
  ⟨grad_k1_at_probe, sat_K1_hasDerivAt, by rw [grad_k1_at_probe]; exact deriv_ne_code.symm⟩

/-- Claim C2 (confirmed): for every time t, parameter vector with K1, N0,
N1, N2 nonzero, and auxiliary assignment, saturation_function returns
relaxation(t)*gate(t) + drift(t) with the three factors exactly as the
spec's formulas state them. -/
theorem saturation_matches_spec_formula (t : ℝ) (p : Params) (a : Aux)
    (h1 : p.K1 ≠ 0) (h2 : p.N0 ≠ 0) (h3 : p.N1 ≠ 0) (h4 : p.N2 ≠ 0) :
    saturation_function t p a = spec_relaxation t p a * spec_gate t p a + spec_drift t p a := by
  unfold saturation_function mod_maxwell s_curve steady spec_relaxation spec_gate spec_drift
  rw [show -1 * (t - a.dt) / (p.N0 / p.K1) = -((t - a.dt) / (p.N0 / p.K1)) by ring,
      show (-t + a.dt) * a.r = -a.r * (t - a.dt) by ring]
  ring

/-- Witness for C2 at t = 2, parameters (1, 1, 1, 1), aux dt = 1, c3 = 1,
cvert = 1, r = 1. -/
theorem saturation_matches_spec_formula_witness :
    saturation_function 2 ⟨1, 1, 1, 1⟩ ⟨1, 1, 1, 1⟩ =
      spec_relaxation 2 ⟨1, 1, 1, 1⟩ ⟨1, 1, 1, 1⟩ * spec_gate 2 ⟨1, 1, 1, 1⟩ ⟨1, 1, 1, 1⟩
        + spec_drift 2 ⟨1, 1, 1, 1⟩ ⟨1, 1, 1, 1⟩ :=
  saturation_matches_spec_formula 2 ⟨1, 1, 1, 1⟩ ⟨1, 1, 1, 1⟩
    one_ne_zero one_ne_zero one_ne_zero one_ne_zero

/-- Claim C3 (code_bug): a candidate window of 5 samples (5 <= 200)
produces EMPTY guess lists — the source has no else branch to take every
point, so no candidate at all is evaluated for windows of at most 200
samples, against the claim's "evaluates every point of the window". -/
theorem downsample_small_window_empty :
    downsampleCandidates [1, 2, 3, 4, 5] [6, 7, 8, 9, 10] = ([], [])
  ∧ ([1, 2, 3, 4, 5] : List ℚ).length = 5 :=
  ⟨rfl, rfl⟩

/-- Counterexample to claim C4 as stated: on candidate losses [0, 5] the
retained result is (5, 1) — the second candidate, with loss 5 — although
the first candidate's loss 0 is the minimum: a best-so-far loss of exactly
0 re-triggers the loss == 0 sentinel and is overwritten. -/
theorem select_zero_loss_counterexample :
    runSelect [0, 5] = (5, 1) ∧ ¬ (runSelect [0, 5]).1 ≤ (0 : ℚ) := by
  constructor <;> decide

/-- Claim C4 (corrected): provided no candidate loss is exactly 0, the
retained (loss, index) pair is the minimum loss over all candidates, the
retained index carries that loss, and every candidate before the retained
one has strictly greater loss (first-seen-wins on ties). -/
theorem runSelect_min (losses : List ℚ) (h0 : ∀ l ∈ losses, l ≠ 0) (hne : losses ≠ [])
    (i : ℕ) (hi : i < losses.length) :
    (runSelect losses).1 ≤ losses.getD i 0
  ∧ (runSelect losses).2 < losses.length
  ∧ losses.getD (runSelect losses).2 0 = (runSelect losses).1
  ∧ (losses.getD i 0 = (runSelect losses).1 → (runSelect losses).2 ≤ i) := by
  match losses, hne with
  | l :: ls, _ =>
    have hl0 : l ≠ 0 := h0 l (List.mem_cons_self l ls)
    have hltail : ∀ x ∈ ls, x ≠ 0 := fun x hx => h0 x (List.mem_cons_of_mem l hx)
    have hrun : runSelect (l :: ls) = selectLoop ls 1 (l, 0) := by
      rw [runSelect, selectLoop, selectStep, if_pos (Or.inl rfl)]
    rcases selectLoop_invariant ls hltail 1 (l, 0) hl0 with
      ⟨heq, hmin⟩ | ⟨m, hm, heq, hlt, hmin, hstrict⟩
    · refine ⟨?_, ?_, ?_, ?_⟩
      · rw [hrun, heq]
        match i with
        | 0 => simp
        | i + 1 => simp only [List.getD_cons_succ]; exact hmin i (by simpa using hi)
      · rw [hrun, heq]; simp
      · rw [hrun, heq]; simp
      · intro _; rw [hrun, heq]; simp
    · have heq' : selectLoop ls 1 (l, 0) = (ls.getD m 0, m + 1) := by
        rw [heq]; congr 1; omega
      refine ⟨?_, ?_, ?_, ?_⟩
      · rw [hrun]
        match i with
        | 0 => simp only [List.getD_cons_zero]; exact le_of_lt hlt
        | i + 1 => simp only [List.getD_cons_succ]; exact hmin i (by simpa using hi)
      · rw [hrun, heq']; simpa using hm
      · rw [hrun, heq']
        simp only [List.getD_cons_succ]
      · intro hv
        rw [hrun] at hv ⊢
        rw [heq'] at hv hlt hstrict ⊢
        dsimp only at hv hlt hstrict ⊢
        match i with
        | 0 =>
          exfalso
          simp only [List.getD_cons_zero] at hv
          rw [hv] at hlt
          exact lt_irrefl _ hlt
        | i + 1 =>
          simp only [List.getD_cons_succ] at hv
          have hmi : m ≤ i := by
            by_contra hcon
            push_neg at hcon
            have hsi := hstrict i hcon
            rw [hv] at hsi
            exact lt_irrefl _ hsi
          omega

/-- Witness for C4 on losses [2, 1, 1]: the retained pair is minimal, in
range, consistent, and the tie between the two losses 1 goes to the
earlier index. -/
theorem runSelect_min_witness :
    (runSelect [2, 1, 1]).1 ≤ ([2, 1, 1] : List ℚ).getD 2 0
  ∧ (runSelect [2, 1, 1]).2 < ([2, 1, 1] : List ℚ).length
  ∧ ([2, 1, 1] : List ℚ).getD (runSelect [2, 1, 1]).2 0 = (runSelect [2, 1, 1]).1
  ∧ (runSelect [2, 1, 1]).2 ≤ 2 :=
  have h := runSelect_min [2, 1, 1] (by decide) (by decide) 2 (by decide)
  ⟨h.1, h.2.1, h.2.2.1, h.2.2.2 (by decide)⟩

/-- Counterexample to claim C5 as stated: on candidate losses [NaN, 1] the
finally retained loss is NaN — the NaN is adopted on the first iteration
(loss == 0 sentinel) and no later comparison with NaN can ever replace it,
although a finite loss 1 is available. -/
theorem nan_first_selected_counterexample :
    runSelectF [FVal.nan, FVal.fin 1] = (FVal.nan, 0)
  ∧ (runSelectF [FVal.nan, FVal.fin 1]).1.isFinite = false
  ∧ (FVal.fin 1).isFinite = true := by
  refine ⟨by decide, by decide, rfl⟩

/-- Claim C5 (corrected): provided no candidate loss is NaN, none is
exactly 0, and none is -inf (a sum of squares cannot be), a run with at
least one finite candidate loss never retains a non-finite loss as the
final best result. -/
theorem runSelectF_finite (losses : List FVal)
    (hnan : ∀ l ∈ losses, l ≠ FVal.nan)
    (hninf : ∀ l ∈ losses, l ≠ FVal.ninf)
    (hz : ∀ l ∈ losses, l.eqZero = false)
    (hfin : ∃ l ∈ losses, l.isFinite = true) :
    (runSelectF losses).1.isFinite = true := by
  refine (selectLoopF_finite losses 0 (FVal.fin 0, 0) hnan hninf hz ?_ ?_ (Or.inr hfin)).1
  · intro h
    cases h
  · intro h
    cases h

/-- Witness for C5 on losses [inf, 1]: the infinite first candidate is
displaced and the final retained loss is finite. -/
theorem runSelectF_finite_witness :
    (runSelectF [FVal.inf, FVal.fin 1]).1.isFinite = true :=
  runSelectF_finite [FVal.inf, FVal.fin 1] (by decide) (by decide) (by decide)
    ⟨FVal.fin 1, by decide, rfl⟩

/-- Claim C6 (confirmed): getAsymtote_Y returns a value exactly when some
i in [1,100) passes the threshold test 0.01*ref > |deltadelta(i)|; at the
first such i it returns the model value at dt*i when the forward slope is
negative and the back-extrapolated value otherwise (asymValue); when no i
in [1,100) passes, it aborts (none). -/
theorem getAsymtote_first_threshold (p : Params) (a : Aux) :
    ((getAsymtote_Y p a).isSome = true ↔ ∃ i, 1 ≤ i ∧ i < 100 ∧ asymCond p a i)
  ∧ (∀ i, 1 ≤ i → i < 100 → asymCond p a i →
      (∀ j, 1 ≤ j → j < i → ¬ asymCond p a j) →
      getAsymtote_Y p a = some (asymValue p a i))
  ∧ ((∀ i, 1 ≤ i → i < 100 → ¬ asymCond p a i) → getAsymtote_Y p a = none) := by
  have hsome : ∀ i, 1 ≤ i → i < 100 → asymCond p a i →
      (∀ j, 1 ≤ j → j < i → ¬ asymCond p a j) →
      getAsymtote_Y p a = some (asymValue p a i) := by
    intro i h1 h2 hc hmin
    exact asymLoop_eq_some p a 99 1 i h1 (by omega) hc fun j hj1 hj2 => hmin j hj1 hj2
  have hnone : (∀ i, 1 ≤ i → i < 100 → ¬ asymCond p a i) → getAsymtote_Y p a = none := by
    intro h
    exact asymLoop_eq_none p a 99 1 fun j h1 h2 => h j h1 (by omega)
  refine ⟨⟨?_, ?_⟩, hsome, hnone⟩
  · intro hs
    by_contra hne
    push_neg at hne
    rw [hnone (fun i hi1 hi2 => hne i hi1 hi2)] at hs
    simp at hs
  · intro hex
    have hm := Nat.find_spec hex
    rw [hsome (Nat.find hex) hm.1 hm.2.1 hm.2.2 ?_]
    · rfl
    · intro j hj1 hj2 hcj
      exact Nat.find_min hex hj2 ⟨hj1, by omega, hcj⟩

/-- Witness for C6 at parameters (1, 1, 1, 1), aux dt = 0, c3 = 1,
cvert = 0, r = 0: with dt = 0 every probe point dt*i coincides with dt, so
no index can beat one hundredth of the reference curvature, and the run
aborts (none). -/
theorem getAsymtote_aborts_witness : getAsymtote_Y ⟨1, 1, 1, 1⟩ ⟨0, 1, 0, 0⟩ = none := by
  apply (getAsymtote_first_threshold ⟨1, 1, 1, 1⟩ ⟨0, 1, 0, 0⟩).2.2
  intro i _ _
  unfold asymCond ddB_dt ddB_asym_guess dB_asym_guess_1 dB_asym_guess_2
  have hdt : (Aux.dt ⟨0, 1, 0, 0⟩ : ℝ) = 0 := rfl
  rw [hdt]
  rw [zero_mul]
  exact abs_hundredth_not_gt _

/-- Claim C7 (code_bug): the gradient closure returned by
get_gradient_function is NOT the exact gradient of the objective returned
by get_obj_function.  On the one-sample data set X = [1], Y = [0] with
parameters (1, 1, 1, 1) and aux dt = 0, c3 = 1, cvert = 0, r = 0, the
closure's K1 component is 1/e while the objective's true derivative in K1
is (1/e)*(1 - 2/e)/2 — the K1 slot inherits the wrong df_dk1 formula. -/
theorem objective_gradient_k1_bug :
    get_gradient_function [1] [0] ⟨0, 1, 0, 0⟩ ⟨1, 1, 1, 1⟩ 0 = Real.exp (-1)
  ∧ HasDerivAt (fun k : ℝ => get_obj_function [1] [0] ⟨0, 1, 0, 0⟩ ⟨k, 1, 1, 1⟩)
      (Real.exp (-1) * (1 - 2 * Real.exp (-1)) / 2) 1
  ∧ get_gradient_function [1] [0] ⟨0, 1, 0, 0⟩ ⟨1, 1, 1, 1⟩ 0
      ≠ Real.exp (-1) * (1 - 2 * Real.exp (-1)) / 2 :=
  ⟨gradfn_at_probe, obj_hasDerivAt, by rw [gradfn_at_probe]; exact code_grad_ne⟩

/-- Claim C8 (confirmed): parameter loading succeeds exactly when every
row's key is a recognized tunable or auxiliary key and every one of the 8
auxiliary keys occurs among the rows; a missing auxiliary key or an
unrecognized key makes it exit (none) before any fitting. -/
theorem read_parameters_validation (rows : List (String × ℚ)) :
    (read_parameters_from_file rows).isSome = true ↔
      ((∀ kv ∈ rows, kv.1 ∈ TUNED_PARAMS ∨ kv.1 ∈ USER_DEFINED_PARAMS)
       ∧ ∀ key ∈ USER_DEFINED_PARAMS, ∃ v, (key, v) ∈ rows) := by
  rw [read_parameters_from_file]
  rcases hloop : readLoop rows (List.replicate 4 0, []) with _ | st
  · have hns : (readLoop rows (List.replicate 4 0, [])).isSome = true ↔ _ :=
      readLoop_isSome_iff rows (List.replicate 4 0, [])
    rw [hloop] at hns
    simp only [Option.isSome_none, Bool.false_eq_true, false_iff] at hns
    simp only [Option.isSome_none, Bool.false_eq_true, false_iff]
    intro hcon
    exact hns hcon.1
  · dsimp only
    have hrec : ∀ key, (st.2.lookup key).isSome = true ↔
        (∃ v, (key, v) ∈ rows ∧ key ∈ USER_DEFINED_PARAMS) := by
      intro key
      rw [readLoop_lookup rows _ _ _ hloop key]
      simp
    have hall : (∀ kv ∈ rows, kv.1 ∈ TUNED_PARAMS ∨ kv.1 ∈ USER_DEFINED_PARAMS) := by
      have h := readLoop_isSome_iff rows (List.replicate 4 0, [])
      rw [hloop] at h
      exact h.mp rfl
    by_cases hc : USER_DEFINED_PARAMS.all (fun key => (st.2.lookup key).isSome) = true
    · rw [if_pos hc]
      simp only [Option.isSome_some, true_iff]
      refine ⟨hall, ?_⟩
      intro key hkey
      rw [List.all_eq_true] at hc
      have h := (hrec key).mp (hc key hkey)
      exact ⟨h.choose, h.choose_spec.1⟩
    · rw [if_neg hc]
      simp only [Option.isSome_none, Bool.false_eq_true, false_iff]
      rintro ⟨-, hkeys⟩
      apply hc
      rw [List.all_eq_true]
      intro key hkey
      rw [hrec key]
      obtain ⟨v, hv⟩ := hkeys key hkey
      exact ⟨v, hv, hkey⟩

/-- Claim C9 (confirmed): across any number of outer-search iterations and
the post-search updates, every auxiliary entry other than dt, cvert (and
the freshly added bt) keeps its starting value — one iteration writes
exactly dt and cvert, once each, to the candidate pair. -/
theorem outer_search_frame (gs : List (ℚ × ℚ)) (m : String → ℚ) (best : ℚ × ℚ) (bt : ℚ)
    (n : ℕ) (k : String)
    (hk : k ∈ ["c3", "r", "dt_min", "dt_max", "optimization_left_cutoff",
               "optimization_right_cutoff", "graph_left_cutoff", "graph_right_cutoff"]) :
    outerLoopAux (List.take n gs) m k = m k
  ∧ postSearchAux (outerLoopAux gs m) best bt k = m k
  ∧ outerStep m best ("dt") = best.1 ∧ outerStep m best ("cvert") = best.2 := by
  have hdt : k ≠ "dt" := by rintro rfl; revert hk; decide
  have hcv : k ≠ "cvert" := by rintro rfl; revert hk; decide
  have hbt : k ≠ "bt" := by rintro rfl; revert hk; decide
  refine ⟨outerLoopAux_frame (List.take n gs) m k hdt hcv, ?_, ?_, ?_⟩
  · simp only [postSearchAux, updateKey]
    rw [if_neg hbt, if_neg hcv, if_neg hdt]
    exact outerLoopAux_frame gs m k hdt hcv
  · simp [outerStep, updateKey]
  · simp [outerStep, updateKey]

/-- Witness for C9: one concrete iteration list, the constant-zero
starting dictionary, and the entry c3. -/
theorem outer_search_frame_witness :
    outerLoopAux (List.take 1 [((1 : ℚ), 2)]) (fun _ => 0) ("c3")
      = (fun _ : String => (0 : ℚ)) ("c3")
  ∧ postSearchAux (outerLoopAux [((1 : ℚ), 2)] (fun _ => 0)) (3, 4) 5 ("c3")
      = (fun _ : String => (0 : ℚ)) ("c3")
  ∧ outerStep (fun _ => 0) ((3 : ℚ), 4) ("dt") = ((3 : ℚ), 4).1
  ∧ outerStep (fun _ => 0) ((3 : ℚ), 4) ("cvert") = ((3 : ℚ), 4).2 :=
  outer_search_frame [((1 : ℚ), 2)] (fun _ => 0) (3, 4) 5 1 ("c3") (by decide)

/-- Claim C10 (confirmed): whenever c3 > 0 the gate factor computed by
s_curve lies strictly between 0 and 1, and the model output is the
gate-weighted relaxation term plus the drift term. -/
theorem s_curve_strictly_between (t : ℝ) (p : Params) (a : Aux) (h : 0 < a.c3) :
    0 < s_curve t p a ∧ s_curve t p a < 1 ∧
      saturation_function t p a = mod_maxwell t p a * s_curve t p a + steady t p a := by
  have he : 0 < Real.exp ((-t + a.dt) * a.r) := Real.exp_pos _
  have hd : 1 < 1 + a.c3 * Real.exp ((-t + a.dt) * a.r) := by nlinarith
  refine ⟨?_, ?_, rfl⟩
  · exact div_pos one_pos (by linarith)
  · rw [s_curve, div_lt_one (by linarith)]
    exact hd

/-- Witness for C10 at t = 0, parameters (1, 1, 1, 1), aux dt = 0, c3 = 1,
cvert = 0, r = 0: the gate is one half. -/
theorem s_curve_strictly_between_witness :
    0 < s_curve 0 ⟨1, 1, 1, 1⟩ ⟨0, 1, 0, 0⟩ ∧ s_curve 0 ⟨1, 1, 1, 1⟩ ⟨0, 1, 0, 0⟩ < 1 ∧
      saturation_function 0 ⟨1, 1, 1, 1⟩ ⟨0, 1, 0, 0⟩ =
        mod_maxwell 0 ⟨1, 1, 1, 1⟩ ⟨0, 1, 0, 0⟩ * s_curve 0 ⟨1, 1, 1, 1⟩ ⟨0, 1, 0, 0⟩
          + steady 0 ⟨1, 1, 1, 1⟩ ⟨0, 1, 0, 0⟩ :=
  s_curve_strictly_between 0 ⟨1, 1, 1, 1⟩ ⟨0, 1, 0, 0⟩ one_pos

end NoProb
